import Mathlib

/-
Verification development for the developer-apologies ingestion pipeline.

The repository ships only the README, cluster job scripts, and a tutorial
notebook; the ingestion pipeline itself (Rate Budget Tracker, Paginated
Query Executor, Entity Walker, Incremental CSV Sink, Crawl Orchestrator,
and the delete command) is described by the specification and the README.
Every definition below is therefore modelled from the spec, as noted in
its doc comment.
-/

namespace DevApologies

/-- Modelled from the spec: a canonical repository identifier (owner/name),
immutable once parsed.  Text is modelled as lists of characters. -/
structure Repo where
  owner : List Char
  rname : List Char
deriving DecidableEq

/-- Modelled from the spec: the entity kind, one of issue, pull_request, commit. -/
inductive EntityKind
  | issue
  | pullRequest
  | commit
deriving DecidableEq

/-- Modelled from the spec: a (repository, entity kind) unit of crawl work. -/
abbrev CrawlPair := Repo × EntityKind

/-- Modelled from the spec: a comment record with id, author, timestamp and body. -/
structure Comment where
  cid : Nat
  author : List Char
  ts : Nat
  body : List Char
deriving DecidableEq

/-- Modelled from the spec: one page of an entity's nested comment pagination,
carrying its rows and the has-more flag. -/
structure CommentPage where
  comments : List Comment
  hasMore : Bool
deriving DecidableEq

/-- Modelled from the spec: a top-level entity as served by the remote API,
with its scalar fields and its nested comment pagination. -/
structure EntityStub where
  eid : Nat
  author : List Char
  created : Nat
  title : List Char
  commentPages : List CommentPage
deriving DecidableEq

/-- Modelled from the spec: one page of top-level entities with the has-more flag. -/
structure Page where
  entities : List EntityStub
  hasMore : Bool
deriving DecidableEq

/-- Modelled from the spec: the flattened entity record emitted downstream,
carrying its fully materialized comment set. -/
structure EntityRecord where
  eid : Nat
  author : List Char
  created : Nat
  title : List Char
  comments : List Comment
deriving DecidableEq

/-- Modelled from the spec: the Query Executor's failure classification. -/
inductive FetchErr
  | transient
  | rateLimited
  | malformed
  | notFound
  | forbidden
deriving DecidableEq

/-- Modelled from the spec: a fault injected at a given (page index, attempt)
of one pair's crawl: either a classified fetch failure, or the Rate Budget
Tracker failing fast with RateLimitUnavailable before the request is issued. -/
inductive Signal
  | err (e : FetchErr)
  | budgetDead
deriving DecidableEq

/-- Modelled from the spec: the outcome of one page fetch after retries. -/
inductive FetchOut
  | ok (p : Page)
  | fail (e : FetchErr)
  | fatalRL
deriving DecidableEq

/-- Modelled from the spec: only Transient and RateLimited failures are
eligible for retry; Malformed/NotFound/Forbidden are surfaced at once. -/
def retryable : FetchErr → Bool
  | .transient => true
  | .rateLimited => true
  | _ => false

/-- Modelled from the spec: one page fetch by the Query Executor, driven by
the Walker's bounded retry loop.  The fault model assigns each (page index,
attempt) an optional failure; absent a fault the ground-truth page is
returned.  The second component counts network requests issued. -/
def tryFetch (faults : Nat → Nat → Option Signal) (pageIdx : Nat) (p : Page) :
    Nat → Nat → FetchOut × Nat
  | 0, attempt =>
    match faults pageIdx attempt with
    | none => (.ok p, 1)
    | some .budgetDead => (.fatalRL, 0)
    | some (.err e) => (.fail e, 1)
  | b + 1, attempt =>
    match faults pageIdx attempt with
    | none => (.ok p, 1)
    | some .budgetDead => (.fatalRL, 0)
    | some (.err e) =>
      if retryable e then
        let r := tryFetch faults pageIdx p b (attempt + 1)
        (r.1, r.2 + 1)
      else (.fail e, 1)

/-- Modelled from the spec: the Walker drains an entity's nested comment
pagination to completion, stopping at the first page whose has-more flag
is false. -/
def drainComments : List CommentPage → List Comment
  | [] => []
  | p :: rest => if p.hasMore then p.comments ++ drainComments rest else p.comments

/-- Modelled from the spec: the number of comment pages fetched while draining. -/
def drainCount : List CommentPage → Nat
  | [] => 0
  | p :: rest => if p.hasMore then 1 + drainCount rest else 1

/-- Modelled from the spec: the entity record emitted downstream, with its
comment set fully materialized before emission. -/
def emitEntity (st : EntityStub) : EntityRecord :=
  ⟨st.eid, st.author, st.created, st.title, drainComments st.commentPages⟩

/-- Modelled from the spec: network requests spent on one entity's comments. -/
def commentRequests (st : EntityStub) : Nat :=
  drainCount st.commentPages

/-- Modelled from the spec: how one pair's walk ended. -/
inductive WalkStatus
  | completed
  | inaccessible
  | failedPair (e : FetchErr)
  | fatalRL
deriving DecidableEq

/-- Modelled from the spec: NotFound/Forbidden terminate the pair as a skip;
other surfaced failures escalate to a per-pair failure. -/
def failStatus : FetchErr → WalkStatus
  | .notFound => .inaccessible
  | .forbidden => .inaccessible
  | e => .failedPair e

/-- Modelled from the spec: the rows a walk emitted, the network requests it
issued, and how it ended. -/
structure WalkResult where
  rows : List EntityRecord
  requests : Nat
  status : WalkStatus
deriving DecidableEq

/-- Modelled from the spec: the Entity Walker for one pair.  It consumes the
remote pair's ground-truth page sequence in order, retries each page within
the bounded budget, drains every entity's comment pagination before emitting
its record, and stops after the first page whose has-more flag is false. -/
def walkGo (faults : Nat → Nat → Option Signal) (rb : Nat) :
    List Page → Nat → WalkResult
  | [], _ => ⟨[], 0, .completed⟩
  | p :: rest, i =>
    let f := tryFetch faults i p rb 0
    match f.1 with
    | .fatalRL => ⟨[], f.2, .fatalRL⟩
    | .fail e => ⟨[], f.2, failStatus e⟩
    | .ok pg =>
      let recs := pg.entities.map emitEntity
      let creq := (pg.entities.map commentRequests).sum
      if pg.hasMore then
        let tail := walkGo faults rb rest (i + 1)
        ⟨recs ++ tail.rows, f.2 + creq + tail.requests, tail.status⟩
      else
        ⟨recs, f.2 + creq, .completed⟩

/-- Modelled from the spec: the fault-free remote API. -/
def noFaults : Nat → Nat → Option Signal := fun _ _ => none

/-- Modelled from the spec's fault-injection scenario: a single Transient
failure on the first attempt of the page with index n. -/
def faultOn (n : Nat) : Nat → Nat → Option Signal :=
  fun i a => if i = n ∧ a = 0 then some (.err .transient) else none

/-- Modelled from the spec: a well-formed nested pagination: every page but
the last reports has-more true and the last reports has-more false. -/
def commentPagesWF : List CommentPage → Bool
  | [] => true
  | [p] => !p.hasMore
  | p :: rest => p.hasMore && commentPagesWF rest

/-- Modelled from the spec (refinement side, stated in the spec's own words):
the rows of one table in API-reported page order — the concatenation, page by
page up to and including the first page whose has-more flag is false, of the
emitted entity records of each page. -/
def specPageOrderRows : List Page → List EntityRecord
  | [] => []
  | p :: rest =>
    if p.hasMore then p.entities.map emitEntity ++ specPageOrderRows rest
    else p.entities.map emitEntity

/-- Modelled from the spec: one CSV-equivalent output table for a pair. -/
structure Table where
  rows : List EntityRecord
deriving DecidableEq

/-- Modelled from the spec: the output directory, one table per pair. -/
structure Store where
  tables : List (CrawlPair × Table)
deriving DecidableEq

/-- Modelled from the spec: look a pair's table up in the output directory. -/
def lookupTab : List (CrawlPair × Table) → CrawlPair → Option Table
  | [], _ => none
  | (q, t) :: rest, pr => if q = pr then some t else lookupTab rest pr

/-- Modelled from the spec: the table for a pair, if its file exists. -/
def lookupTable (st : Store) (pr : CrawlPair) : Option Table :=
  lookupTab st.tables pr

/-- Modelled from the spec: the data rows currently recorded for a pair. -/
def rowsOf (st : Store) (pr : CrawlPair) : List EntityRecord :=
  match lookupTable st pr with
  | none => []
  | some t => t.rows

/-- Modelled from the spec: the Sink's already-completed predicate: the pair's
table exists and holds at least one data row (never a header-only file). -/
def alreadyCompleted (st : Store) (pr : CrawlPair) : Bool :=
  match lookupTable st pr with
  | none => false
  | some t => !t.rows.isEmpty

/-- Modelled from the spec: the Sink's scoped acquisition: create the pair's
table (header only, no data rows) if absent, leaving an existing one alone. -/
def openTable (st : Store) (pr : CrawlPair) : Store :=
  match lookupTable st pr with
  | some _ => st
  | none => ⟨st.tables ++ [(pr, ⟨[]⟩)]⟩

/-- Modelled from the spec: extend the first table recorded for the pair. -/
def appendTab (pr : CrawlPair) (rs : List EntityRecord) :
    List (CrawlPair × Table) → List (CrawlPair × Table)
  | [] => []
  | (q, t) :: rest =>
    if q = pr then (q, ⟨t.rows ++ rs⟩) :: rest
    else (q, t) :: appendTab pr rs rest

/-- Modelled from the spec: the Sink's append: rows are only ever added at the
end of the pair's table; no table is rewritten or reordered. -/
def appendRows (st : Store) (pr : CrawlPair) (rs : List EntityRecord) : Store :=
  ⟨appendTab pr rs st.tables⟩

/-- Modelled from the spec: the per-pair outcome collected by the Orchestrator. -/
inductive PairOutcome
  | completed
  | skippedExisting
  | skippedInaccessible
  | failedPair (e : FetchErr)
  | fatalRL
deriving DecidableEq

/-- Modelled from the spec: map a walk's terminal status to the pair outcome. -/
def statusToOutcome : WalkStatus → PairOutcome
  | .completed => .completed
  | .inaccessible => .skippedInaccessible
  | .failedPair e => .failedPair e
  | .fatalRL => .fatalRL

/-- Modelled from the spec: the remote API as seen by one run: each pair's
ground-truth page sequence and its injected fault schedule. -/
structure Api where
  pages : CrawlPair → List Page
  faults : CrawlPair → Nat → Nat → Option Signal

/-- Modelled from the spec: the result of processing one pair. -/
structure PairResult where
  store : Store
  outcome : PairOutcome
  requests : Nat
deriving DecidableEq

/-- Modelled from the spec: the Orchestrator's handling of one pair: skip it
with zero network requests when its table is already completed, otherwise
open the Sink, drive the Walker, append the yielded rows, and record the
outcome together with the number of network requests issued. -/
def runPair (rb : Nat) (api : Api) (st : Store) (pr : CrawlPair) : PairResult :=
  if alreadyCompleted st pr then ⟨st, .skippedExisting, 0⟩
  else
    let w := walkGo (api.faults pr) rb (api.pages pr) 0
    ⟨appendRows (openTable st pr) pr w.rows, statusToOutcome w.status, w.requests⟩

/-- Modelled from the spec: the two run-fatal conditions. -/
inductive RunFatal
  | rateLimitUnavailable
  | ioFailure
deriving DecidableEq

/-- Modelled from the spec: the Orchestrator's aggregate state: the output
directory, the per-pair report, and the fatal condition if the run aborted. -/
structure RunResult where
  store : Store
  report : List (CrawlPair × PairOutcome × Nat)
  fatal : Option RunFatal
deriving DecidableEq

/-- Modelled from the spec: the Orchestrator's loop over pairs: per-pair
failures are recorded and the run moves on; only the Tracker's
RateLimitUnavailable aborts the remainder. -/
def runPairs (rb : Nat) (api : Api) : Store → List CrawlPair → RunResult
  | st, [] => ⟨st, [], none⟩
  | st, pr :: rest =>
    let r := runPair rb api st pr
    if r.outcome = PairOutcome.fatalRL then
      ⟨r.store, [(pr, r.outcome, r.requests)], some .rateLimitUnavailable⟩
    else
      let tail := runPairs rb api r.store rest
      ⟨tail.store, (pr, r.outcome, r.requests) :: tail.report, tail.fatal⟩

/-- Modelled from the spec: the Orchestrator's run: an unrecoverable local
I/O failure on the output directory is run-fatal before any pair is
processed; otherwise the pair loop runs. -/
def runCrawl (rb : Nat) (api : Api) (dirWritable : Bool) (st : Store)
    (prs : List CrawlPair) : RunResult :=
  if dirWritable then runPairs rb api st prs else ⟨st, [], some .ioFailure⟩

/-- Modelled from the spec: a list has another list as an initial segment. -/
def startsWithL : List Char → List Char → Bool
  | [], _ => true
  | _ :: _, [] => false
  | a :: as, b :: bs => if a = b then startsWithL as bs else false

/-- Modelled from the spec: split a character list on the slash separator. -/
def splitSlash : List Char → List (List Char)
  | [] => [[]]
  | c :: cs =>
    if c = '/' then [] :: splitSlash cs
    else
      match splitSlash cs with
      | [] => [[c]]
      | g :: gs => (c :: g) :: gs

/-- Modelled from the spec: strip the hosting-site URL head from a target
string, leaving the owner/name part. -/
def stripHost (s : List Char) : List Char :=
  let h := "https://github.com/".toList
  if startsWithL h s then s.drop h.length else s

/-- Modelled from the spec: parse a user-supplied repository identifier (URL
or owner/name form) into a canonical identifier, rejecting malformed input
before any network call. -/
def parseRepoTarget (s : List Char) : Option Repo :=
  match splitSlash (stripHost s) with
  | [o, n] => if o.isEmpty || n.isEmpty then none else some ⟨o, n⟩
  | _ => none

/-- Modelled from the spec: the per-target outcome: a malformed identifier is
rejected as InvalidTarget; a parsed one carries its pair's outcome. -/
inductive TargetOutcome
  | invalidTarget
  | pairOut (o : PairOutcome)
deriving DecidableEq

/-- Modelled from the spec: the result of processing a target list. -/
structure TargetsResult where
  store : Store
  report : List (List Char × TargetOutcome × Nat)
  fatal : Option RunFatal
deriving DecidableEq

/-- Modelled from the spec: the run over the user-supplied target list for
one entity-kind selector: each malformed target is rejected before any
network call, fatal to that one target only, with zero requests; each valid
target's pair is processed as usual. -/
def processTargets (rb : Nat) (api : Api) (kd : EntityKind) :
    Store → List (List Char) → TargetsResult
  | st, [] => ⟨st, [], none⟩
  | st, t :: ts =>
    match parseRepoTarget t with
    | none =>
      let tail := processTargets rb api kd st ts
      ⟨tail.store, (t, .invalidTarget, 0) :: tail.report, tail.fatal⟩
    | some repo =>
      let r := runPair rb api st (repo, kd)
      if r.outcome = PairOutcome.fatalRL then
        ⟨r.store, [(t, .pairOut r.outcome, r.requests)], some .rateLimitUnavailable⟩
      else
        let tail := processTargets rb api kd r.store ts
        ⟨tail.store, (t, .pairOut r.outcome, r.requests) :: tail.report, tail.fatal⟩

/-- Modelled from the spec: the Rate Budget Tracker's state: remaining
points, point ceiling, and the reset timestamp when one is known. -/
structure BudgetState where
  remaining : Nat
  ceiling : Nat
  resetAt : Option Nat
deriving DecidableEq

/-- Modelled from the spec: what the Tracker's gate does with a caller. -/
inductive AdmitOut
  | proceed (t : Nat)
  | unavailable
deriving DecidableEq

/-- Modelled from the spec: the Tracker's gate (the spec's admit()): called at
time now, it returns at the earliest time at which either remaining points
exceed the safety margin or the reset time has passed, sleeping until then;
with the budget at or below the margin and no usable reset time it fails
fast with RateLimitUnavailable. -/
def admission (margin : Nat) (s : BudgetState) (now : Nat) : AdmitOut :=
  if margin < s.remaining then .proceed now
  else
    match s.resetAt with
    | some r => .proceed (max now r)
    | none => .unavailable

/-- Modelled from the spec: the kind of an on-disk file, as the delete
command distinguishes them. -/
inductive FileKind
  | csvData
  | hdf5
  | otherFile
deriving DecidableEq

/-- Modelled from the spec: an on-disk file with its path, kind and content. -/
structure FsFile where
  path : List Char
  kind : FileKind
  content : List Char
deriving DecidableEq

/-- Modelled from the spec: whether the delete command removes this file:
only CSV data files under the given data directory. -/
def deletable (dataDir : List Char) (f : FsFile) : Bool :=
  match f.kind with
  | .csvData => startsWithL dataDir f.path
  | _ => false

/-- Modelled from the spec: the delete command (README: it deletes local CSV
data from the given data directory and cannot be used to delete the HDF5
file): the filesystem keeps every file except the CSV data under the
directory, each kept file unchanged. -/
def deleteCommand (dataDir : List Char) (fs : List FsFile) : List FsFile :=
  fs.filter (fun f => !deletable dataDir f)

/-- A fixture repository used by concrete witnesses. -/
def fixRepo : Repo := ⟨[ 'o' ], [ 'r' ]⟩

/-- A fixture pair used by concrete witnesses. -/
def fixPair : CrawlPair := (fixRepo, EntityKind.issue)

/-- A fixture first page: one entity without comments, more pages follow. -/
def fixPage1 : Page := ⟨[⟨1, [ 'x' ], 5, [ 't' ], []⟩], true⟩

/-- A fixture last page: one entity with one drained comment page. -/
def fixPage2 : Page := ⟨[⟨2, [ 'y' ], 6, [ 'u' ], [⟨[⟨10, [ 'z' ], 7, [ 'c' ]⟩], false⟩]⟩], false⟩

/-- A fixture fault-free remote API serving the two fixture pages. -/
def fixApi : Api := ⟨fun _ => [fixPage1, fixPage2], fun _ => noFaults⟩

/-- A fixture store whose fixture-pair table is completed and non-empty. -/
def fixStoreDone : Store := ⟨[(fixPair, ⟨[⟨1, [], 0, [], []⟩]⟩)]⟩

/-- A fixture API whose every fetch reports the repository as not found. -/
def fixApiNF : Api := ⟨fun _ => [fixPage1], fun _ _ _ => some (.err .notFound)⟩

/-- A fixture API where only the pull-request pair fails, with Malformed. -/
def fixApiMixed : Api :=
  ⟨fun _ => [fixPage2],
   fun pr _ _ => if pr.2 = EntityKind.pullRequest then some (.err .malformed) else none⟩

end DevApologies

namespace DevApologies

theorem tryFetch_ok_page (faults : Nat → Nat → Option Signal) (i : Nat) (p pg : Page) :
    ∀ b a, (tryFetch faults i p b a).1 = .ok pg → pg = p := by
  intro b
  induction b with
  | zero =>
    intro a h
    simp only [tryFetch] at h
    rcases hf : faults i a with _ | s
    · rw [hf] at h; simp at h; exact h.symm
    · rcases s with e | _ <;> rw [hf] at h <;> simp at h
  | succ b ih =>
    intro a h
    simp only [tryFetch] at h
    rcases hf : faults i a with _ | s
    · rw [hf] at h; simp at h; exact h.symm
    · rcases s with e | _
      · rw [hf] at h
        simp only at h
        by_cases hr : retryable e = true
        · rw [if_pos hr] at h
          exact ih (a + 1) h
        · rw [if_neg hr] at h; simp at h
      · rw [hf] at h; simp at h

theorem tryFetch_none (faults : Nat → Nat → Option Signal) (i : Nat) (p : Page)
    (b a : Nat) (hf : faults i a = none) :
    tryFetch faults i p b a = (.ok p, 1) := by
  cases b <;> simp [tryFetch, hf]

theorem tryFetch_noFaults (i : Nat) (p : Page) (b a : Nat) :
    tryFetch noFaults i p b a = (.ok p, 1) :=
  tryFetch_none _ i p b a rfl

theorem tryFetch_faultOn_ne (n i : Nat) (p : Page) (b a : Nat) (h : i ≠ n) :
    tryFetch (faultOn n) i p b a = (.ok p, 1) := by
  refine tryFetch_none _ i p b a ?_
  simp [faultOn, h]

theorem tryFetch_faultOn_hit (n : Nat) (p : Page) (b : Nat) :
    tryFetch (faultOn n) n p (b + 1) 0 = (.ok p, 2) := by
  have h1 : faultOn n n 0 = some (.err .transient) := by simp [faultOn]
  have h2 : tryFetch (faultOn n) n p b 1 = (.ok p, 1) := by
    refine tryFetch_none _ n p b 1 ?_
    simp [faultOn]
  simp [tryFetch, h1, h2, retryable]

theorem drainComments_wf (ps : List CommentPage) (h : commentPagesWF ps = true) :
    drainComments ps = (ps.map CommentPage.comments).flatten := by
  induction ps with
  | nil => simp [drainComments]
  | cons p rest ih =>
    cases rest with
    | nil =>
      simp only [commentPagesWF, Bool.not_eq_true'] at h
      simp [drainComments, h]
    | cons q rest' =>
      simp only [commentPagesWF, Bool.and_eq_true] at h
      have h1 : drainComments (p :: q :: rest') = p.comments ++ drainComments (q :: rest') := by
        simp [drainComments, h.1]
      rw [h1, ih h.2]
      simp

/-- C2: every entity record emitted by the Entity Walker's walk has its
comment set fully materialized at emission: assuming each entity's nested
comment pagination is well formed, every emitted record is the emission of
some served entity and carries the concatenation of all of that entity's
comment pages — never a truncated or in-flight comment set. -/
theorem walk_comments_materialized (faults : Nat → Nat → Option Signal)
    (rb : Nat) (pages : List Page) (i : Nat)
    (hwf : ∀ p ∈ pages, ∀ stub ∈ p.entities, commentPagesWF stub.commentPages = true) :
    ∀ rec ∈ (walkGo faults rb pages i).rows,
      ∃ p ∈ pages, ∃ stub ∈ p.entities, rec = emitEntity stub ∧
        rec.comments = (stub.commentPages.map CommentPage.comments).flatten := by
  induction pages generalizing i with
  | nil =>
    intro rec hrec
    simp [walkGo] at hrec
  | cons p rest ih =>
    intro rec hrec
    rcases hfo : (tryFetch faults i p rb 0).1 with pg | e | _
    · have hpg : pg = p := tryFetch_ok_page faults i p pg rb 0 hfo
      have hfo2 : (tryFetch faults i p rb 0).1 = .ok p := by rw [hfo, hpg]
      by_cases hm : p.hasMore = true
      · simp only [walkGo, hfo2, hm, if_true] at hrec
        rcases List.mem_append.mp hrec with hl | hr
        · rcases List.mem_map.mp hl with ⟨stub, hstub, hemit⟩
          refine ⟨p, List.mem_cons_self p rest, stub, hstub, hemit.symm, ?_⟩
          rw [← hemit]
          exact drainComments_wf _ (hwf p (List.mem_cons_self p rest) stub hstub)
        · rcases ih (i + 1) (fun q hq => hwf q (List.mem_cons_of_mem p hq)) rec hr with
            ⟨q, hq, stub, hstub, hemit, hcm⟩
          exact ⟨q, List.mem_cons_of_mem p hq, stub, hstub, hemit, hcm⟩
      · have hm' : p.hasMore = false := Bool.eq_false_iff.mpr hm
        simp only [walkGo, hfo2, hm', Bool.false_eq_true, if_false] at hrec
        rcases List.mem_map.mp hrec with ⟨stub, hstub, hemit⟩
        refine ⟨p, List.mem_cons_self p rest, stub, hstub, hemit.symm, ?_⟩
        rw [← hemit]
        exact drainComments_wf _ (hwf p (List.mem_cons_self p rest) stub hstub)
    · simp [walkGo, hfo] at hrec
    · simp [walkGo, hfo] at hrec

/-- C2 witness: the theorem applied to the fixture pages. -/
theorem walk_comments_materialized_witness :
    (∀ p ∈ [fixPage1, fixPage2], ∀ stub ∈ p.entities,
        commentPagesWF stub.commentPages = true) ∧
    (∀ rec ∈ (walkGo noFaults 1 [fixPage1, fixPage2] 0).rows,
      ∃ p ∈ [fixPage1, fixPage2], ∃ stub ∈ p.entities, rec = emitEntity stub ∧
        rec.comments = (stub.commentPages.map CommentPage.comments).flatten) :=
  ⟨by decide, walk_comments_materialized noFaults 1 [fixPage1, fixPage2] 0 (by decide)⟩

theorem walk_drop_after_last (faults : Nat → Nat → Option Signal) (rb : Nat)
    (p : Page) (h : p.hasMore = false) :
    ∀ front i rest, walkGo faults rb (front ++ p :: rest) i
      = walkGo faults rb (front ++ [p]) i := by
  intro front
  induction front with
  | nil =>
    intro i rest
    rcases hfo : (tryFetch faults i p rb 0).1 with pg | e | _
    · have hpg : pg = p := tryFetch_ok_page faults i p pg rb 0 hfo
      have hfo2 : (tryFetch faults i p rb 0).1 = .ok p := by rw [hfo, hpg]
      simp [walkGo, hfo2, h]
    · simp [walkGo, hfo]
    · simp [walkGo, hfo]
  | cons u front' ih =>
    intro i rest
    rcases hfo : (tryFetch faults i u rb 0).1 with pg | e | _
    · have hpg : pg = u := tryFetch_ok_page faults i u pg rb 0 hfo
      have hfo2 : (tryFetch faults i u rb 0).1 = .ok u := by rw [hfo, hpg]
      by_cases hm : u.hasMore = true
      · simp only [List.cons_append, walkGo, hfo2, hm, if_true]
        simp only [List.append_eq]
        rw [ih (i + 1) rest]
      · have hm' : u.hasMore = false := Bool.eq_false_iff.mpr hm
        simp [walkGo, hfo2, hm']
    · simp [walkGo, hfo]
    · simp [walkGo, hfo]

theorem drain_drop_after_last (cp : CommentPage) (h : cp.hasMore = false) :
    ∀ cs crest, drainComments (cs ++ cp :: crest) = drainComments (cs ++ [cp]) := by
  intro cs
  induction cs with
  | nil => intro crest; simp [drainComments, h]
  | cons c cs' ih =>
    intro crest
    by_cases hm : c.hasMore = true
    · simp only [List.cons_append, drainComments, hm, if_true]
      simp only [List.append_eq]
      rw [ih crest]
    · have hm' : c.hasMore = false := Bool.eq_false_iff.mpr hm
      simp [drainComments, hm']

/-- C5: the Entity Walker's produced sequence is finite once the remote API
reaches a page whose has-more flag is false: the walk is insensitive to
anything the API could serve past that page, i.e. it terminates right after
it, and likewise a nested comment drain terminates at the first comment page
whose has-more flag is false. -/
theorem walk_stops_at_last_page (faults : Nat → Nat → Option Signal) (rb : Nat)
    (front rest : List Page) (p : Page) (i : Nat) (h : p.hasMore = false) :
    walkGo faults rb (front ++ p :: rest) i = walkGo faults rb (front ++ [p]) i
    ∧ ∀ cs crest (cp : CommentPage), cp.hasMore = false →
        drainComments (cs ++ cp :: crest) = drainComments (cs ++ [cp]) :=
  ⟨walk_drop_after_last faults rb p h front i rest,
   fun cs crest cp hcp => drain_drop_after_last cp hcp cs crest⟩

/-- C5 witness: the theorem applied to the fixture pages, with an extra junk
page appended past the terminal one. -/
theorem walk_stops_at_last_page_witness :
    fixPage2.hasMore = false ∧
    (walkGo noFaults 1 ([fixPage1] ++ fixPage2 :: [fixPage1]) 0
        = walkGo noFaults 1 ([fixPage1] ++ [fixPage2]) 0
      ∧ ∀ cs crest (cp : CommentPage), cp.hasMore = false →
          drainComments (cs ++ cp :: crest) = drainComments (cs ++ [cp])) :=
  ⟨by decide, walk_stops_at_last_page noFaults 1 [fixPage1] [fixPage1] fixPage2 0 (by decide)⟩

theorem walk_faultOn_eq (n : Nat) (b : Nat) :
    ∀ pages i, (walkGo (faultOn n) (b + 1) pages i).rows
        = (walkGo noFaults (b + 1) pages i).rows
      ∧ (walkGo (faultOn n) (b + 1) pages i).status
        = (walkGo noFaults (b + 1) pages i).status := by
  intro pages
  induction pages with
  | nil => intro i; exact ⟨rfl, rfl⟩
  | cons p rest ih =>
    intro i
    have hN : (tryFetch noFaults i p (b + 1) 0).1 = .ok p := by
      rw [tryFetch_noFaults]
    have hF : (tryFetch (faultOn n) i p (b + 1) 0).1 = .ok p := by
      by_cases hi : i = n
      · subst hi; rw [tryFetch_faultOn_hit]
      · rw [tryFetch_faultOn_ne n i p (b + 1) 0 hi]
    by_cases hm : p.hasMore = true
    · constructor
      · simp only [walkGo, hN, hF, hm, if_true]
        rw [(ih (i + 1)).1]
      · simp only [walkGo, hN, hF, hm, if_true]
        exact (ih (i + 1)).2
    · have hm' : p.hasMore = false := Bool.eq_false_iff.mpr hm
      constructor <;> simp [walkGo, hN, hF, hm']

/-- C3: a Transient failure injected on the first attempt of the page with
index n, with a retry budget of at least one, makes the Walker retry that
same page (two requests where a clean fetch issues one, the retry
succeeding), and the crawl produces exactly the rows of a fault-free run,
with the same terminal status; consequently the Orchestrator writes the very
same output tables it would have written without the fault. -/
theorem walk_transient_retry_equiv (pages : List Page) (n rb : Nat) (h : 1 ≤ rb) :
    ((walkGo (faultOn n) rb pages 0).rows = (walkGo noFaults rb pages 0).rows
      ∧ (walkGo (faultOn n) rb pages 0).status = (walkGo noFaults rb pages 0).status)
    ∧ (∀ p : Page, tryFetch (faultOn n) n p rb 0 = (.ok p, 2))
    ∧ ∀ (st : Store) (pr : CrawlPair) (pagesF : CrawlPair → List Page),
        (runPair rb ⟨pagesF, fun _ => faultOn n⟩ st pr).store
          = (runPair rb ⟨pagesF, fun _ => noFaults⟩ st pr).store
        ∧ (runPair rb ⟨pagesF, fun _ => faultOn n⟩ st pr).outcome
          = (runPair rb ⟨pagesF, fun _ => noFaults⟩ st pr).outcome := by
  obtain ⟨b, rfl⟩ : ∃ b, rb = b + 1 := ⟨rb - 1, (Nat.succ_pred_eq_of_pos h).symm⟩
  refine ⟨walk_faultOn_eq n b pages 0, fun p => tryFetch_faultOn_hit n p b, ?_⟩
  intro st pr pagesF
  by_cases hc : alreadyCompleted st pr = true
  · simp [runPair, hc]
  · have hc' : alreadyCompleted st pr = false := Bool.eq_false_iff.mpr hc
    have he := walk_faultOn_eq n b (pagesF pr) 0
    constructor
    · simp only [runPair, hc', Bool.false_eq_true, if_false]
      rw [he.1]
    · simp only [runPair, hc', Bool.false_eq_true, if_false]
      rw [he.2]

/-- C3 witness: the theorem applied with the fault on the second fixture
page and a retry budget of one. -/
theorem walk_transient_retry_equiv_witness :
    1 ≤ 1 ∧
    (((walkGo (faultOn 1) 1 [fixPage1, fixPage2] 0).rows
        = (walkGo noFaults 1 [fixPage1, fixPage2] 0).rows
      ∧ (walkGo (faultOn 1) 1 [fixPage1, fixPage2] 0).status
        = (walkGo noFaults 1 [fixPage1, fixPage2] 0).status)
    ∧ (∀ p : Page, tryFetch (faultOn 1) 1 p 1 0 = (.ok p, 2))
    ∧ ∀ (st : Store) (pr : CrawlPair) (pagesF : CrawlPair → List Page),
        (runPair 1 ⟨pagesF, fun _ => faultOn 1⟩ st pr).store
          = (runPair 1 ⟨pagesF, fun _ => noFaults⟩ st pr).store
        ∧ (runPair 1 ⟨pagesF, fun _ => faultOn 1⟩ st pr).outcome
          = (runPair 1 ⟨pagesF, fun _ => noFaults⟩ st pr).outcome) :=
  ⟨Nat.le_refl 1, walk_transient_retry_equiv [fixPage1, fixPage2] 1 1 (Nat.le_refl 1)⟩

/-- C1: re-running the Orchestrator on a pair whose output table is already
completed and non-empty issues zero network requests for that pair, reports
it as skipped-existing, and leaves the whole output directory — in
particular that pair's table — unchanged, so running twice equals running
once. -/
theorem runPair_skips_completed (rb : Nat) (api : Api) (st : Store)
    (pr : CrawlPair) (h : alreadyCompleted st pr = true) :
    runPair rb api st pr = ⟨st, .skippedExisting, 0⟩ := by
  simp [runPair, h]

/-- C1 witness: the theorem applied to a store holding a completed non-empty
table for the fixture pair. -/
theorem runPair_skips_completed_witness :
    alreadyCompleted fixStoreDone fixPair = true ∧
    runPair 1 fixApi fixStoreDone fixPair = ⟨fixStoreDone, .skippedExisting, 0⟩ :=
  ⟨by decide, runPair_skips_completed 1 fixApi fixStoreDone fixPair (by decide)⟩

theorem tryFetch_nonretry (faults : Nat → Nat → Option Signal) (i : Nat) (p : Page)
    (b a : Nat) (e : FetchErr) (hf : faults i a = some (.err e))
    (hr : retryable e = false) :
    tryFetch faults i p b a = (.fail e, 1) := by
  cases b <;> simp [tryFetch, hf, hr]

theorem appendRows_nil (st : Store) (pr : CrawlPair) :
    appendRows st pr [] = st := by
  rcases st with ⟨ts⟩
  simp only [appendRows, Store.mk.injEq]
  induction ts with
  | nil => rfl
  | cons qt rest ih =>
    rcases qt with ⟨q, t⟩
    by_cases hq : q = pr
    · simp [appendTab, hq]
    · simp [appendTab, hq, ih]

theorem lookupTab_append_single (ts : List (CrawlPair × Table)) (pr pr' : CrawlPair)
    (t0 : Table) :
    lookupTab (ts ++ [(pr, t0)]) pr' =
      match lookupTab ts pr' with
      | some t => some t
      | none => if pr = pr' then some t0 else none := by
  induction ts with
  | nil => simp [lookupTab]
  | cons qt rest ih =>
    rcases qt with ⟨q, t⟩
    by_cases hq : q = pr'
    · simp [lookupTab, hq]
    · simp [lookupTab, hq, ih]

theorem lookupTable_openTable (st : Store) (pr pr' : CrawlPair) :
    lookupTable (openTable st pr) pr' =
      match lookupTable st pr' with
      | some t => some t
      | none => if pr = pr' ∧ lookupTable st pr = none then some ⟨[]⟩ else none := by
  rcases hpr : lookupTable st pr with _ | t
  · have hpr2 : lookupTab st.tables pr = none := hpr
    simp only [openTable, lookupTable, hpr2]
    rw [lookupTab_append_single st.tables pr pr' ⟨[]⟩]
    rcases h2 : lookupTab st.tables pr' with _ | t' <;> simp [h2]
  · have hpr2 : lookupTab st.tables pr = some t := hpr
    simp only [openTable, lookupTable, hpr2]
    rcases h2 : lookupTab st.tables pr' with _ | t' <;> simp [h2]

theorem lookupTab_appendTab_ne (pr pr' : CrawlPair) (rs : List EntityRecord)
    (h : pr' ≠ pr) :
    ∀ ts, lookupTab (appendTab pr rs ts) pr' = lookupTab ts pr' := by
  intro ts
  induction ts with
  | nil => rfl
  | cons qt rest ih =>
    rcases qt with ⟨q, t⟩
    by_cases hq : q = pr
    · have hq' : ¬ q = pr' := fun hc => h (hc ▸ hq)
      have hq'' : ¬ pr = pr' := fun hc => h hc.symm
      simp [appendTab, lookupTab, hq, hq', hq'']
    · by_cases hq' : q = pr'
      · simp [appendTab, lookupTab, hq, hq', h]
      · simp [appendTab, lookupTab, hq, hq', ih]

theorem lookupTab_appendTab_self (pr : CrawlPair) (rs : List EntityRecord) :
    ∀ ts, lookupTab (appendTab pr rs ts) pr =
      (lookupTab ts pr).map (fun t => (⟨t.rows ++ rs⟩ : Table)) := by
  intro ts
  induction ts with
  | nil => rfl
  | cons qt rest ih =>
    rcases qt with ⟨q, t⟩
    by_cases hq : q = pr
    · simp [appendTab, lookupTab, hq]
    · simp [appendTab, lookupTab, hq, ih]

theorem rowsOf_appendRows (st : Store) (pr pr' : CrawlPair) (rs : List EntityRecord) :
    ∃ tl, rowsOf st pr' ++ tl = rowsOf (appendRows st pr rs) pr' := by
  by_cases h : pr' = pr
  · subst h
    rcases hl : lookupTable st pr' with _ | t
    · refine ⟨[], ?_⟩
      simp only [rowsOf, appendRows, lookupTable]
      rw [lookupTab_appendTab_self]
      simp only [lookupTable] at hl
      rw [hl]
      simp [rowsOf, hl]
    · refine ⟨rs, ?_⟩
      simp only [rowsOf, appendRows, lookupTable]
      rw [lookupTab_appendTab_self]
      simp only [lookupTable] at hl
      rw [hl]
      simp [rowsOf, hl]
  · refine ⟨[], ?_⟩
    simp only [rowsOf, appendRows, lookupTable]
    rw [lookupTab_appendTab_ne pr pr' rs h]
    simp [rowsOf, lookupTable]

theorem rowsOf_openTable (st : Store) (pr pr' : CrawlPair) :
    rowsOf (openTable st pr) pr' = rowsOf st pr' := by
  simp only [rowsOf]
  rw [lookupTable_openTable st pr pr']
  rcases hl : lookupTable st pr' with _ | t
  · by_cases hc : pr = pr' ∧ lookupTable st pr = none <;> simp [hc, hl]
  · simp

/-- C4: on an Inaccessible (NotFound/Forbidden) response for the first page
of a pair whose table does not exist yet, the Orchestrator records the pair
as skipped (not failed), zero data rows are written so the pair's table
afterwards is empty, the pair still does not count as already completed, and
the already-completed predicate in general holds only for tables carrying at
least one data row, never a header-only file. -/
theorem runPair_inaccessible_skip (rb : Nat) (api : Api) (st : Store)
    (pr : CrawlPair) (p : Page) (rest : List Page)
    (habs : lookupTable st pr = none)
    (hpages : api.pages pr = p :: rest)
    (hfault : api.faults pr 0 0 = some (.err .notFound)
      ∨ api.faults pr 0 0 = some (.err .forbidden)) :
    (runPair rb api st pr).outcome = .skippedInaccessible
    ∧ rowsOf (runPair rb api st pr).store pr = []
    ∧ alreadyCompleted (runPair rb api st pr).store pr = false
    ∧ ∀ (st' : Store) (q : CrawlPair), alreadyCompleted st' q = true →
        ∃ t, lookupTable st' q = some t ∧ t.rows ≠ [] := by
  have hnc : alreadyCompleted st pr = false := by
    simp [alreadyCompleted, habs]
  obtain ⟨e, he, hfs⟩ : ∃ e, api.faults pr 0 0 = some (.err e)
      ∧ failStatus e = .inaccessible ∧ retryable e = false := by
    rcases hfault with h1 | h1
    · exact ⟨.notFound, h1, rfl, rfl⟩
    · exact ⟨.forbidden, h1, rfl, rfl⟩
  have ht : tryFetch (api.faults pr) 0 p rb 0 = (.fail e, 1) :=
    tryFetch_nonretry (api.faults pr) 0 p rb 0 e he hfs.2
  have hw : walkGo (api.faults pr) rb (api.pages pr) 0 = ⟨[], 1, .inaccessible⟩ := by
    rw [hpages]
    simp [walkGo, ht, hfs.1]
  have hrp : runPair rb api st pr = ⟨openTable st pr, .skippedInaccessible, 1⟩ := by
    simp [runPair, hnc, hw, statusToOutcome, appendRows_nil]
  refine ⟨by rw [hrp], ?_, ?_, ?_⟩
  · rw [hrp]
    show rowsOf (openTable st pr) pr = []
    rw [rowsOf_openTable]
    simp [rowsOf, habs]
  · rw [hrp]
    show alreadyCompleted (openTable st pr) pr = false
    simp only [alreadyCompleted]
    rw [lookupTable_openTable st pr pr]
    simp [habs]
  · intro st' q hq
    simp only [alreadyCompleted] at hq
    rcases hl : lookupTable st' q with _ | t
    · rw [hl] at hq; simp at hq
    · rw [hl] at hq
      simp only [Bool.not_eq_true'] at hq
      exact ⟨t, rfl, by simpa [List.isEmpty_iff] using hq⟩

/-- C4 witness: the theorem applied to an empty store and an API whose first
fetch reports the repository as not found. -/
theorem runPair_inaccessible_skip_witness :
    (lookupTable ⟨[]⟩ fixPair = none
      ∧ fixApiNF.pages fixPair = [fixPage1]
      ∧ fixApiNF.faults fixPair 0 0 = some (.err .notFound)) ∧
    ((runPair 1 fixApiNF ⟨[]⟩ fixPair).outcome = .skippedInaccessible
      ∧ rowsOf (runPair 1 fixApiNF ⟨[]⟩ fixPair).store fixPair = []
      ∧ alreadyCompleted (runPair 1 fixApiNF ⟨[]⟩ fixPair).store fixPair = false
      ∧ ∀ (st' : Store) (q : CrawlPair), alreadyCompleted st' q = true →
          ∃ t, lookupTable st' q = some t ∧ t.rows ≠ []) :=
  ⟨⟨by decide, rfl, rfl⟩,
   runPair_inaccessible_skip 1 fixApiNF ⟨[]⟩ fixPair fixPage1 [] (by decide) rfl
     (Or.inl rfl)⟩

theorem walk_noFaults_rows (rb : Nat) :
    ∀ pages i, (walkGo noFaults rb pages i).rows = specPageOrderRows pages := by
  intro pages
  induction pages with
  | nil => intro i; rfl
  | cons p rest ih =>
    intro i
    have hN : (tryFetch noFaults i p rb 0).1 = .ok p := by rw [tryFetch_noFaults]
    by_cases hm : p.hasMore = true
    · simp only [walkGo, hN, hm, if_true, specPageOrderRows]
      rw [ih (i + 1)]
    · have hm' : p.hasMore = false := Bool.eq_false_iff.mpr hm
      simp [walkGo, hN, hm', specPageOrderRows]

/-- C7: the pipeline only ever extends an output table: across the Sink's
open and append and across a whole Orchestrator step on any pair, the rows
previously recorded for any pair are an initial segment of the rows recorded
afterwards (no table is rewritten or reordered), and the rows a fault-free
walk hands the Sink are exactly the entity records in API-reported page
order. -/
theorem sink_append_only_order (rb : Nat) (api : Api) (st : Store)
    (pr pr' : CrawlPair) :
    (∃ tl, rowsOf st pr' ++ tl = rowsOf (runPair rb api st pr).store pr')
    ∧ (∀ rs, ∃ tl, rowsOf st pr' ++ tl = rowsOf (appendRows st pr rs) pr')
    ∧ rowsOf (openTable st pr) pr' = rowsOf st pr'
    ∧ ∀ pages, (walkGo noFaults rb pages 0).rows = specPageOrderRows pages := by
  refine ⟨?_, fun rs => rowsOf_appendRows st pr pr' rs, rowsOf_openTable st pr pr',
    fun pages => walk_noFaults_rows rb pages 0⟩
  by_cases hc : alreadyCompleted st pr = true
  · exact ⟨[], by simp [runPair, hc]⟩
  · have hc' : alreadyCompleted st pr = false := Bool.eq_false_iff.mpr hc
    have hstep : (runPair rb api st pr).store
        = appendRows (openTable st pr) pr
            (walkGo (api.faults pr) rb (api.pages pr) 0).rows := by
      simp [runPair, hc']
    rw [hstep]
    obtain ⟨tl, htl⟩ := rowsOf_appendRows (openTable st pr) pr pr'
      (walkGo (api.faults pr) rb (api.pages pr) 0).rows
    exact ⟨tl, by rw [← htl, rowsOf_openTable]⟩

theorem statusToOutcome_fatal (s : WalkStatus) :
    statusToOutcome s = .fatalRL ↔ s = .fatalRL := by
  cases s <;> simp [statusToOutcome]

theorem runPair_not_fatal (rb : Nat) (api : Api) (st : Store) (pr : CrawlPair)
    (h : (walkGo (api.faults pr) rb (api.pages pr) 0).status ≠ .fatalRL) :
    (runPair rb api st pr).outcome ≠ PairOutcome.fatalRL := by
  by_cases hc : alreadyCompleted st pr = true
  · simp [runPair, hc]
  · have hc' : alreadyCompleted st pr = false := Bool.eq_false_iff.mpr hc
    simp only [runPair, hc', Bool.false_eq_true, if_false]
    intro hfat
    exact h ((statusToOutcome_fatal _).mp hfat)

theorem runPairs_all (rb : Nat) (api : Api) :
    ∀ (prs : List CrawlPair) (st : Store),
      (∀ pr ∈ prs, (walkGo (api.faults pr) rb (api.pages pr) 0).status ≠ .fatalRL) →
      (runPairs rb api st prs).fatal = none
      ∧ (runPairs rb api st prs).report.map Prod.fst = prs := by
  intro prs
  induction prs with
  | nil => intro st _; exact ⟨rfl, rfl⟩
  | cons pr rest ih =>
    intro st hn
    have h1 : (runPair rb api st pr).outcome ≠ PairOutcome.fatalRL :=
      runPair_not_fatal rb api st pr (hn pr (List.mem_cons_self pr rest))
    have ih' := ih (runPair rb api st pr).store
      (fun q hq => hn q (List.mem_cons_of_mem pr hq))
    constructor
    · simp only [runPairs, if_neg h1]
      exact ih'.1
    · simp only [runPairs, if_neg h1, List.map_cons]
      rw [ih'.2]

theorem runPairs_fatal_kind (rb : Nat) (api : Api) :
    ∀ (prs : List CrawlPair) (st : Store) (f : RunFatal),
      (runPairs rb api st prs).fatal = some f → f = .rateLimitUnavailable := by
  intro prs
  induction prs with
  | nil => intro st f h; simp [runPairs] at h
  | cons pr rest ih =>
    intro st f h
    by_cases hc : (runPair rb api st pr).outcome = PairOutcome.fatalRL
    · simp only [runPairs, if_pos hc] at h
      simp at h
      exact h.symm
    · simp only [runPairs, if_neg hc] at h
      exact ih (runPair rb api st pr).store f h

/-- C6: a failure confined to one (repository, entity kind) pair never aborts
the Orchestrator's processing of the remaining pairs: whenever the output
directory is writable and no pair trips the Tracker's RateLimitUnavailable,
the run reaches every pair and returns an aggregate per-pair report covering
exactly the input pairs with no fatal condition; and any fatal condition the
run can ever report is RateLimitUnavailable or an output-directory I/O
failure (the latter only when the directory is unwritable). -/
theorem runCrawl_contains_failures (rb : Nat) (api : Api) (dw : Bool)
    (st : Store) (prs : List CrawlPair) :
    (dw = true →
      (∀ pr ∈ prs, (walkGo (api.faults pr) rb (api.pages pr) 0).status ≠ .fatalRL) →
      (runCrawl rb api dw st prs).fatal = none
      ∧ (runCrawl rb api dw st prs).report.map Prod.fst = prs)
    ∧ ∀ f, (runCrawl rb api dw st prs).fatal = some f →
        f = .rateLimitUnavailable ∨ (f = .ioFailure ∧ dw = false) := by
  constructor
  · intro hdw hn
    rw [hdw]
    show (runPairs rb api st prs).fatal = none
      ∧ (runPairs rb api st prs).report.map Prod.fst = prs
    exact runPairs_all rb api prs st hn
  · intro f hf
    cases dw with
    | true =>
      rw [show runCrawl rb api true st prs = runPairs rb api st prs from rfl] at hf
      exact Or.inl (runPairs_fatal_kind rb api prs st f hf)
    | false =>
      rw [show runCrawl rb api false st prs = ⟨st, [], some .ioFailure⟩ from rfl] at hf
      simp at hf
      exact Or.inr ⟨hf.symm, rfl⟩

/-- C6 witness: the theorem applied to three pairs of which the middle one
fails with Malformed; the run still reports all three pairs and no fatal
condition. -/
theorem runCrawl_contains_failures_witness :
    (true = true
      ∧ (∀ pr ∈ [(fixRepo, EntityKind.issue), (fixRepo, EntityKind.pullRequest),
            (fixRepo, EntityKind.commit)],
          (walkGo (fixApiMixed.faults pr) 1 (fixApiMixed.pages pr) 0).status ≠ .fatalRL))
    ∧ (runCrawl 1 fixApiMixed true ⟨[]⟩
        [(fixRepo, EntityKind.issue), (fixRepo, EntityKind.pullRequest),
          (fixRepo, EntityKind.commit)]).fatal = none
    ∧ (runCrawl 1 fixApiMixed true ⟨[]⟩
        [(fixRepo, EntityKind.issue), (fixRepo, EntityKind.pullRequest),
          (fixRepo, EntityKind.commit)]).report.map Prod.fst
      = [(fixRepo, EntityKind.issue), (fixRepo, EntityKind.pullRequest),
          (fixRepo, EntityKind.commit)] :=
  ⟨⟨rfl, by decide⟩,
   (runCrawl_contains_failures 1 fixApiMixed true ⟨[]⟩
      [(fixRepo, EntityKind.issue), (fixRepo, EntityKind.pullRequest),
        (fixRepo, EntityKind.commit)]).1 rfl (by decide)⟩

/-- C8: a malformed repository identifier is rejected by parsing before any
network request: processing a target list containing it yields an
InvalidTarget entry for that target carrying zero network requests, and the
resulting output directory, fatal state, and every other target's report
entry are exactly those of the same run without the malformed target. -/
theorem invalid_target_isolated (rb : Nat) (api : Api) (kd : EntityKind)
    (st : Store) (ts1 ts2 : List (List Char)) (t : List Char)
    (hbad : parseRepoTarget t = none)
    (hnf : ∀ pr : CrawlPair,
      (walkGo (api.faults pr) rb (api.pages pr) 0).status ≠ .fatalRL) :
    (processTargets rb api kd st (ts1 ++ t :: ts2)).store
      = (processTargets rb api kd st (ts1 ++ ts2)).store
    ∧ (processTargets rb api kd st (ts1 ++ t :: ts2)).fatal
      = (processTargets rb api kd st (ts1 ++ ts2)).fatal
    ∧ (processTargets rb api kd st (ts1 ++ t :: ts2)).report
      = (processTargets rb api kd st (ts1 ++ ts2)).report.take ts1.length
        ++ (t, .invalidTarget, 0)
          :: (processTargets rb api kd st (ts1 ++ ts2)).report.drop ts1.length := by
  induction ts1 generalizing st with
  | nil =>
    simp only [List.nil_append, List.length_nil, List.take_zero, List.drop_zero]
    rw [show processTargets rb api kd st (t :: ts2)
        = ⟨(processTargets rb api kd st ts2).store,
            (t, .invalidTarget, 0) :: (processTargets rb api kd st ts2).report,
            (processTargets rb api kd st ts2).fatal⟩ from by
      simp [processTargets, hbad]]
    exact ⟨rfl, rfl, rfl⟩
  | cons u ts1' ih =>
    rcases hu : parseRepoTarget u with _ | repo
    · have hL : processTargets rb api kd st ((u :: ts1') ++ t :: ts2)
          = ⟨(processTargets rb api kd st (ts1' ++ t :: ts2)).store,
              (u, .invalidTarget, 0)
                :: (processTargets rb api kd st (ts1' ++ t :: ts2)).report,
              (processTargets rb api kd st (ts1' ++ t :: ts2)).fatal⟩ := by
        simp [processTargets, hu]
      have hR : processTargets rb api kd st ((u :: ts1') ++ ts2)
          = ⟨(processTargets rb api kd st (ts1' ++ ts2)).store,
              (u, .invalidTarget, 0)
                :: (processTargets rb api kd st (ts1' ++ ts2)).report,
              (processTargets rb api kd st (ts1' ++ ts2)).fatal⟩ := by
        simp [processTargets, hu]
      rw [hL, hR]
      obtain ⟨h1, h2, h3⟩ := ih st
      exact ⟨h1, h2, by simp [h3]⟩
    · have hne : (runPair rb api st (repo, kd)).outcome ≠ PairOutcome.fatalRL :=
        runPair_not_fatal rb api st (repo, kd) (hnf (repo, kd))
      have hL : processTargets rb api kd st ((u :: ts1') ++ t :: ts2)
          = ⟨(processTargets rb api kd (runPair rb api st (repo, kd)).store
                (ts1' ++ t :: ts2)).store,
              (u, .pairOut (runPair rb api st (repo, kd)).outcome,
                  (runPair rb api st (repo, kd)).requests)
                :: (processTargets rb api kd (runPair rb api st (repo, kd)).store
                    (ts1' ++ t :: ts2)).report,
              (processTargets rb api kd (runPair rb api st (repo, kd)).store
                (ts1' ++ t :: ts2)).fatal⟩ := by
        simp [processTargets, hu, if_neg hne]
      have hR : processTargets rb api kd st ((u :: ts1') ++ ts2)
          = ⟨(processTargets rb api kd (runPair rb api st (repo, kd)).store
                (ts1' ++ ts2)).store,
              (u, .pairOut (runPair rb api st (repo, kd)).outcome,
                  (runPair rb api st (repo, kd)).requests)
                :: (processTargets rb api kd (runPair rb api st (repo, kd)).store
                    (ts1' ++ ts2)).report,
              (processTargets rb api kd (runPair rb api st (repo, kd)).store
                (ts1' ++ ts2)).fatal⟩ := by
        simp [processTargets, hu, if_neg hne]
      rw [hL, hR]
      obtain ⟨h1, h2, h3⟩ := ih (runPair rb api st (repo, kd)).store
      exact ⟨h1, h2, by simp [h3]⟩

/-- C8 witness: the theorem applied to a malformed target between two valid
targets, against the fault-free fixture API. -/
theorem invalid_target_isolated_witness :
    parseRepoTarget [ 'b', 'a', 'd' ] = none ∧
    ((processTargets 1 fixApi EntityKind.issue ⟨[]⟩
        ([[ 'a', '/', 'b' ]] ++ [ 'b', 'a', 'd' ] :: [[ 'c', '/', 'd' ]])).store
      = (processTargets 1 fixApi EntityKind.issue ⟨[]⟩
          ([[ 'a', '/', 'b' ]] ++ [[ 'c', '/', 'd' ]])).store
    ∧ (processTargets 1 fixApi EntityKind.issue ⟨[]⟩
        ([[ 'a', '/', 'b' ]] ++ [ 'b', 'a', 'd' ] :: [[ 'c', '/', 'd' ]])).fatal
      = (processTargets 1 fixApi EntityKind.issue ⟨[]⟩
          ([[ 'a', '/', 'b' ]] ++ [[ 'c', '/', 'd' ]])).fatal
    ∧ (processTargets 1 fixApi EntityKind.issue ⟨[]⟩
        ([[ 'a', '/', 'b' ]] ++ [ 'b', 'a', 'd' ] :: [[ 'c', '/', 'd' ]])).report
      = (processTargets 1 fixApi EntityKind.issue ⟨[]⟩
          ([[ 'a', '/', 'b' ]] ++ [[ 'c', '/', 'd' ]])).report.take
            [[ 'a', '/', 'b' ]].length
        ++ ([ 'b', 'a', 'd' ], .invalidTarget, 0)
          :: (processTargets 1 fixApi EntityKind.issue ⟨[]⟩
              ([[ 'a', '/', 'b' ]] ++ [[ 'c', '/', 'd' ]])).report.drop
                [[ 'a', '/', 'b' ]].length) :=
  ⟨by decide,
   invalid_target_isolated 1 fixApi EntityKind.issue ⟨[]⟩
     [[ 'a', '/', 'b' ]] [[ 'c', '/', 'd' ]] [ 'b', 'a', 'd' ]
     (by decide)
     (fun pr =>
       (by decide :
         (walkGo noFaults 1 [fixPage1, fixPage2] 0).status ≠ WalkStatus.fatalRL))⟩

/-- C9: the Rate Budget Tracker's gate admits a caller only once remaining
points exceed the safety margin or the reset time has passed: a successful
return happens no earlier than the call, at a time satisfying the admission
condition, and at every earlier instant since the call neither disjunct
held — the caller stays blocked until the condition is true. -/
theorem admission_blocks_until_budget (margin : Nat) (s : BudgetState)
    (now t : Nat) (h : admission margin s now = .proceed t) :
    now ≤ t
    ∧ (margin < s.remaining ∨ ∃ r, s.resetAt = some r ∧ r ≤ t)
    ∧ ∀ u, now ≤ u → u < t →
        ¬ margin < s.remaining ∧ ∀ r, s.resetAt = some r → u < r := by
  by_cases hm : margin < s.remaining
  · have ht : t = now := by
      simp only [admission, if_pos hm, AdmitOut.proceed.injEq] at h
      exact h.symm
    subst ht
    exact ⟨Nat.le_refl t, Or.inl hm, fun u hu hlt => absurd (Nat.lt_of_le_of_lt hu hlt)
      (Nat.lt_irrefl t)⟩
  · rcases hr : s.resetAt with _ | r
    · rw [admission, if_neg hm, hr] at h
      exact absurd h (by simp)
    · have ht : t = max now r := by
        rw [admission, if_neg hm, hr] at h
        simpa using h.symm
      subst ht
      refine ⟨Nat.le_max_left now r, Or.inr ⟨r, rfl, Nat.le_max_right now r⟩, ?_⟩
      intro u hu hlt
      refine ⟨hm, ?_⟩
      intro r' hr'
      have hrr : r' = r := (Option.some.inj hr').symm
      subst hrr
      omega

/-- C9 witness: the theorem applied to a budget one page below the margin
with a known reset time, called before that reset time. -/
theorem admission_blocks_until_budget_witness :
    admission 5 ⟨3, 100, some 40⟩ 10 = .proceed 40 ∧
    (10 ≤ 40
      ∧ (5 < 3 ∨ ∃ r, (some 40 : Option Nat) = some r ∧ r ≤ 40)
      ∧ ∀ u, 10 ≤ u → u < 40 →
          ¬ (5 : Nat) < 3 ∧ ∀ r, (some 40 : Option Nat) = some r → u < r) :=
  ⟨by decide, admission_blocks_until_budget 5 ⟨3, 100, some 40⟩ 10 40 (by decide)⟩

/-- C10: the delete command removes only local CSV data under the given data
directory: every file it leaves was already present and unchanged, every
file it removes is a CSV data file under that directory, and in particular
no HDF5 file is ever removed or modified by delete. -/
theorem delete_leaves_hdf5 (dataDir : List Char) (fs : List FsFile) :
    (∀ f ∈ fs, f.kind = .hdf5 → f ∈ deleteCommand dataDir fs)
    ∧ (∀ f ∈ deleteCommand dataDir fs, f ∈ fs)
    ∧ (∀ f ∈ fs, f ∉ deleteCommand dataDir fs →
        f.kind = .csvData ∧ startsWithL dataDir f.path = true) := by
  refine ⟨?_, ?_, ?_⟩
  · intro f hf hk
    refine List.mem_filter.mpr ⟨hf, ?_⟩
    simp [deletable, hk]
  · intro f hf
    exact (List.mem_filter.mp hf).1
  · intro f hf hnot
    by_cases hd : deletable dataDir f = true
    · rcases hk : f.kind with _ | _ | _
      · exact ⟨rfl, by simpa [deletable, hk] using hd⟩
      · rw [deletable, hk] at hd; simp at hd
      · rw [deletable, hk] at hd; simp at hd
    · exact absurd (List.mem_filter.mpr ⟨hf, by simp [hd]⟩) hnot

/-- C10 witness: the theorem applied to a filesystem holding one HDF5 file
and one CSV data file under the data directory. -/
theorem delete_leaves_hdf5_witness :
    (⟨[ 'd', '/', 'x' ], FileKind.hdf5, [ 'h' ]⟩ : FsFile)
        ∈ [(⟨[ 'd', '/', 'x' ], FileKind.hdf5, [ 'h' ]⟩ : FsFile),
           ⟨[ 'd', '/', 'y' ], FileKind.csvData, [ 'c' ]⟩]
    ∧ (⟨[ 'd', '/', 'x' ], FileKind.hdf5, [ 'h' ]⟩ : FsFile)
        ∈ deleteCommand [ 'd' ]
            [⟨[ 'd', '/', 'x' ], FileKind.hdf5, [ 'h' ]⟩,
             ⟨[ 'd', '/', 'y' ], FileKind.csvData, [ 'c' ]⟩] :=
  ⟨by decide,
   (delete_leaves_hdf5 [ 'd' ]
      [⟨[ 'd', '/', 'x' ], FileKind.hdf5, [ 'h' ]⟩,
       ⟨[ 'd', '/', 'y' ], FileKind.csvData, [ 'c' ]⟩]).1
     ⟨[ 'd', '/', 'x' ], FileKind.hdf5, [ 'h' ]⟩ (by decide) rfl⟩

end DevApologies
